import Mathlib

/-!
Verification of the SAM3 inference service of the agri-drone-ops repository.

This file shallowly embeds the coordinate-transformation, geometry,
image-session-cache and model-lifecycle logic of
`services/sam3-service/app` (routers `predict.py`, `segment.py`, `yolo.py`,
`health.py`, the predictor `sam3_predictor.py` and `utils/mask_utils.py`)
and proves or refutes the specified properties.

Conventions of the embedding:
* Python floats are modelled as exact rationals (`ℚ`).
* Python `int(...)` (truncation toward zero) is modelled by `pyInt`.
* External effects (model loading, image decoding, the model inference
  calls themselves) are passed in as explicit oracle arguments; the
  control flow around them is translated from the source.
-/

namespace AgriDrone

/-! ## Coordinate transformation (predict.py)

`predict.py` maps caller points into the cached (possibly downsized) image
space with `int(p.x * scale_factor)` (line 92) and maps output geometry
back with `int(coord * inverse_scale)` where `inverse_scale = 1.0 /
scale_factor` (lines 116-121). -/

/-- Python `int(q)`: truncation toward zero. -/
def pyInt (q : ℚ) : ℤ :=
  if q < 0 then -(Int.floor (-q)) else Int.floor q

/-- Forward map of a click point into cached-image space,
from predict.py line 92: `int(p.x * scale_factor), int(p.y * scale_factor)`. -/
def scale_point (s : ℚ) (x y : ℤ) : ℤ × ℤ :=
  (pyInt ((x : ℚ) * s), pyInt ((y : ℚ) * s))

/-- Inverse map of one output coordinate back to original-image space,
from predict.py lines 117-121: `int(coord * inverse_scale)` with
`inverse_scale = 1.0 / scale_factor`. -/
def unscale_coord (s : ℚ) (c : ℤ) : ℤ :=
  pyInt ((c : ℚ) * (1 / s))

/-- Inverse map applied to a whole bbox, guarded exactly as in
predict.py line 116: only applied when the scale factor is not 1. -/
def scale_bbox_back (s : ℚ) (bbox : List ℤ) : List ℤ :=
  if s = 1 then bbox else bbox.map (unscale_coord s)

theorem pyInt_of_nonneg {q : ℚ} (h : 0 ≤ q) : pyInt q = Int.floor q := by
  unfold pyInt
  rw [if_neg (not_lt.mpr h)]

/-- The round trip of one coordinate: forward into cached space, then back. -/
def round_trip (s : ℚ) (c : ℤ) : ℤ :=
  unscale_coord s (scale_point s c c).1

/-- C4 counterexample: the forward map truncates rather than rounding to
nearest.  At click coordinate x = 3 with scale factor 1/2 the code returns
`int(1.5) = 1`, while round-to-nearest gives 2. -/
theorem c4_round_counterexample :
    (scale_point (1/2) 3 7).1 = 1 ∧ round ((3 : ℚ) * (1/2)) = 2 ∧ (1 : ℤ) ≠ 2 := by
  refine ⟨?_, ?_, by decide⟩
  · show pyInt ((3 : ℚ) * (1/2)) = 1
    norm_num [pyInt]
  · norm_num [round_eq]

/-- C4 (amended): for a positive scale factor and nonnegative coordinates,
the forward point map of predict.py returns the floor (truncation) of
x*s and y*s, and the inverse map returns the floor of c/s — truncation,
not round-to-nearest. -/
theorem c4_trunc_maps (s : ℚ) (x y c : ℤ) (hs : 0 < s) (hx : 0 ≤ x) (hy : 0 ≤ y)
    (hc : 0 ≤ c) :
    scale_point s x y = (⌊(x : ℚ) * s⌋, ⌊(y : ℚ) * s⌋) ∧
    unscale_coord s c = ⌊(c : ℚ) / s⌋ := by
  have hx' : (0 : ℚ) ≤ (x : ℚ) * s := mul_nonneg (by exact_mod_cast hx) hs.le
  have hy' : (0 : ℚ) ≤ (y : ℚ) * s := mul_nonneg (by exact_mod_cast hy) hs.le
  have hc' : (0 : ℚ) ≤ (c : ℚ) * (1 / s) :=
    mul_nonneg (by exact_mod_cast hc) (by positivity)
  refine ⟨?_, ?_⟩
  · unfold scale_point
    rw [pyInt_of_nonneg hx', pyInt_of_nonneg hy']
  · unfold unscale_coord
    rw [pyInt_of_nonneg hc', mul_one_div]

/-- C4 witness: the amended truncation law evaluated at s = 1/2, x = 3,
y = 7, c = 5. -/
theorem c4_trunc_maps_witness :
    scale_point (1/2) 3 7 = (⌊(3 : ℚ) * (1/2)⌋, ⌊(7 : ℚ) * (1/2)⌋) ∧
    unscale_coord (1/2) 5 = ⌊(5 : ℚ) / (1/2)⌋ :=
  c4_trunc_maps (1/2) 3 7 5 (by norm_num) (by decide) (by decide) (by decide)

/-- C3 counterexample: the ±1 px round-trip law fails.  With scale factor
s = 2/5 ∈ (0,1], the bbox coordinate 4 maps forward to int(8/5) = 1 and
back to int(1 · 5/2) = 2, an error of 2 pixels. -/
theorem c3_roundtrip_counterexample :
    (0 : ℚ) < 2/5 ∧ (2/5 : ℚ) ≤ 1 ∧ round_trip (2/5) 4 = 2 ∧
    ¬ (|(4 : ℤ) - round_trip (2/5) 4| ≤ 1) := by
  have h : round_trip (2/5) 4 = 2 := by
    show unscale_coord (2/5) (pyInt ((4 : ℚ) * (2/5))) = 2
    norm_num [pyInt, unscale_coord]
  refine ⟨by norm_num, by norm_num, h, ?_⟩
  rw [h]
  decide

/-- C3 (amended): for every scale factor s ∈ (0,1] and nonnegative integer
coordinate c, the round trip never overshoots (it returns at most c) and
undershoots by at most ⌈1/s⌉ pixels; it is exact for s = 1.  The ±1 px
bound of the original claim holds only when ⌈1/s⌉ ≤ 1, i.e. s = 1. -/
theorem c3_roundtrip_bound (s : ℚ) (c : ℤ) (hs0 : 0 < s) (hs1 : s ≤ 1) (hc : 0 ≤ c) :
    round_trip s c ≤ c ∧ c - round_trip s c ≤ ⌈1 / s⌉ ∧ (s = 1 → round_trip s c = c) := by
  have hcs : (0 : ℚ) ≤ (c : ℚ) * s := mul_nonneg (by exact_mod_cast hc) hs0.le
  have hf0 : (0 : ℤ) ≤ ⌊(c : ℚ) * s⌋ := Int.floor_nonneg.mpr hcs
  have h1s : (0 : ℚ) ≤ 1 / s := by positivity
  have hrt : round_trip s c = ⌊(⌊(c : ℚ) * s⌋ : ℚ) * (1 / s)⌋ := by
    unfold round_trip unscale_coord scale_point
    rw [pyInt_of_nonneg hcs, pyInt_of_nonneg (mul_nonneg (by exact_mod_cast hf0) h1s)]
  have hup : round_trip s c ≤ c := by
    rw [hrt]
    have hle : (⌊(c : ℚ) * s⌋ : ℚ) * (1 / s) ≤ (c : ℚ) := by
      calc (⌊(c : ℚ) * s⌋ : ℚ) * (1 / s) ≤ ((c : ℚ) * s) * (1 / s) :=
            mul_le_mul_of_nonneg_right (Int.floor_le _) h1s
        _ = (c : ℚ) := by field_simp
    calc ⌊(⌊(c : ℚ) * s⌋ : ℚ) * (1 / s)⌋ ≤ ⌊(c : ℚ)⌋ := Int.floor_le_floor hle
      _ = c := Int.floor_intCast c
  refine ⟨hup, ?_, ?_⟩
  · have hgt : (c : ℚ) - 1 / s < (⌊(c : ℚ) * s⌋ : ℚ) * (1 / s) := by
      have hlt : (c : ℚ) * s - 1 < (⌊(c : ℚ) * s⌋ : ℚ) := Int.sub_one_lt_floor _
      calc (c : ℚ) - 1 / s = ((c : ℚ) * s - 1) * (1 / s) := by
            field_simp
        _ < (⌊(c : ℚ) * s⌋ : ℚ) * (1 / s) :=
            mul_lt_mul_of_pos_right hlt (by positivity)
    have hlt2 : (⌊(c : ℚ) * s⌋ : ℚ) * (1 / s) < (round_trip s c : ℚ) + 1 := by
      rw [hrt]
      exact Int.lt_floor_add_one _
    have hq : ((c - round_trip s c - 1 : ℤ) : ℚ) < 1 / s := by
      push_cast
      linarith
    have hz : c - round_trip s c - 1 < ⌈1 / s⌉ := by
      have := lt_of_lt_of_le hq (Int.le_ceil (1 / s))
      exact_mod_cast this
    omega
  · intro h1
    subst h1
    rw [hrt]
    simp

/-- C3 witness: the amended bound evaluated at s = 2/5, c = 4, where the
round trip returns 2 and the undershoot 2 is within ⌈5/2⌉ = 3. -/
theorem c3_roundtrip_bound_witness :
    round_trip (2/5) 4 ≤ 4 ∧ (4 : ℤ) - round_trip (2/5) 4 ≤ ⌈(1 : ℚ) / (2/5)⌉ ∧
    ((2/5 : ℚ) = 1 → round_trip (2/5) 4 = 4) :=
  c3_roundtrip_bound (2/5) 4 (by norm_num) (by norm_num) (by decide)

/-! ## Image session cache and predictor state (sam3_predictor.py)

The mutable fields of the `SAM3Predictor` singleton.  External effects
(the actual weight load, the PIL decode, the `sam3.set_image` call) are
supplied as oracle arguments. -/

structure PredictorState where
  model_loaded : Bool
  current_image_id : Option String
  current_image_path : Option String
  current_scale_factor : ℚ
deriving DecidableEq

/-- Translation of `SAM3Predictor.load_model` (sam3_predictor.py lines
49-84).  `ok` is the outcome of the external SamGeo3 construction; on
failure the method returns False and `model_loaded` stays false. -/
def load_model (ok : Bool) (st : PredictorState) : PredictorState × Bool :=
  if st.model_loaded then (st, true)
  else if ok then ({ st with model_loaded := true }, true)
  else (st, false)

/-- Translation of `SAM3Predictor.set_image` (sam3_predictor.py lines
86-114), the path-based variant.  `setOk` is the outcome of the external
`sam3.set_image` call.  Note the source updates `_current_image_id` and
`_current_image_path` but not `_current_scale_factor`. -/
def set_image (loadOk setOk : Bool) (image_path image_id : String)
    (st : PredictorState) : PredictorState × Bool :=
  let r := load_model loadOk st
  if r.2 = false then (r.1, false)
  else if r.1.current_image_id = some image_id then (r.1, true)
  else if setOk then
    ({ r.1 with current_image_id := some image_id,
                current_image_path := some image_path }, true)
  else (r.1, false)

/-- Translation of `SAM3Predictor.get_scale_factor` (sam3_predictor.py
lines 248-250). -/
def get_scale_factor (st : PredictorState) : ℚ :=
  st.current_scale_factor

/-- Result of `set_image_from_bytes`: the new state, the returned
(success, scale_factor) pair, and an instrumentation flag recording
whether the image bytes were decoded/resized on this call. -/
structure SetImageResult where
  state : PredictorState
  success : Bool
  scale_factor : ℚ
  decoded : Bool
deriving DecidableEq

/-- Translation of `SAM3Predictor.set_image_from_bytes` (sam3_predictor.py
lines 116-182).  `decode` is the outcome of the external PIL decode (the
original width and height, or failure); `setOk` the outcome of the
external `sam3.set_image` call; `tempPath` the temp file the resized
image is written to.  The fast path (`_current_image_id == image_id`,
lines 141-144) returns the cached scale factor without decoding. -/
def set_image_from_bytes (loadOk : Bool) (decode : Option (ℕ × ℕ)) (setOk : Bool)
    (tempPath image_id : String) (max_dimension : ℕ) (st : PredictorState) :
    SetImageResult :=
  match load_model loadOk st with
  | (st1, false) => ⟨st1, false, 1, false⟩
  | (st1, true) =>
    if st1.current_image_id = some image_id then
      ⟨st1, true, st1.current_scale_factor, false⟩
    else
      match decode with
      | none => ⟨st1, false, 1, true⟩
      | some (w, h) =>
        let max_dim := max w h
        let scale_factor : ℚ :=
          if max_dimension < max_dim then (max_dimension : ℚ) / (max_dim : ℚ) else 1
        if setOk then
          ⟨{ st1 with current_image_id := some image_id,
                      current_image_path := some tempPath,
                      current_scale_factor := scale_factor },
           true, scale_factor, true⟩
        else ⟨st1, false, 1, true⟩

/-- The cache check of the predict route (predict.py lines 69-88): the
image is fetched only when the asset id differs from the resident one. -/
def needs_fetch (st : PredictorState) (image_id : String) : Bool :=
  !(st.current_image_id == some image_id)

theorem load_model_of_loaded {st : PredictorState} (h : st.model_loaded = true)
    (ok : Bool) : load_model ok st = (st, true) := by
  unfold load_model
  rw [if_pos h]

theorem load_model_eq_true {ok : Bool} {st st1 : PredictorState}
    (h : load_model ok st = (st1, true)) : st1.model_loaded = true := by
  unfold load_model at h
  split_ifs at h with h1 h2
  · obtain ⟨h', -⟩ := Prod.mk.injEq .. ▸ h
    rw [← h']
    exact h1
  · obtain ⟨h', -⟩ := Prod.mk.injEq .. ▸ h
    rw [← h']
  · obtain ⟨-, h''⟩ := Prod.mk.injEq .. ▸ h
    exact absurd h''.symm (by simp)

/-- The cache-hit fast path of `set_image_from_bytes` (sam3_predictor.py
lines 141-144): with the model loaded and the same image id resident, the
call returns the cached scale factor and changes nothing. -/
theorem set_image_from_bytes_fast (loadOk : Bool) (decode : Option (ℕ × ℕ))
    (setOk : Bool) (tempPath image_id : String) (max_dimension : ℕ)
    (st : PredictorState) (hm : st.model_loaded = true)
    (hid : st.current_image_id = some image_id) :
    set_image_from_bytes loadOk decode setOk tempPath image_id max_dimension st =
      ⟨st, true, st.current_scale_factor, false⟩ := by
  unfold set_image_from_bytes
  rw [load_model_of_loaded hm]
  simp [hid]

theorem set_image_from_bytes_load_fail {loadOk : Bool} {st st1 : PredictorState}
    (h : load_model loadOk st = (st1, false)) (decode : Option (ℕ × ℕ)) (setOk : Bool)
    (tempPath image_id : String) (maxD : ℕ) :
    set_image_from_bytes loadOk decode setOk tempPath image_id maxD st =
      ⟨st1, false, 1, false⟩ := by
  unfold set_image_from_bytes
  rw [h]

theorem set_image_from_bytes_hit {loadOk : Bool} {st st1 : PredictorState}
    {image_id : String} (h : load_model loadOk st = (st1, true))
    (h3 : st1.current_image_id = some image_id) (decode : Option (ℕ × ℕ)) (setOk : Bool)
    (tempPath : String) (maxD : ℕ) :
    set_image_from_bytes loadOk decode setOk tempPath image_id maxD st =
      ⟨st1, true, st1.current_scale_factor, false⟩ := by
  unfold set_image_from_bytes
  rw [h]
  simp [h3]

theorem set_image_from_bytes_decode_fail {loadOk : Bool} {st st1 : PredictorState}
    {image_id : String} (h : load_model loadOk st = (st1, true))
    (h3 : ¬ st1.current_image_id = some image_id) (setOk : Bool) (tempPath : String)
    (maxD : ℕ) :
    set_image_from_bytes loadOk none setOk tempPath image_id maxD st =
      ⟨st1, false, 1, true⟩ := by
  unfold set_image_from_bytes
  rw [h]
  simp [h3]

theorem set_image_from_bytes_set_fail {loadOk : Bool} {st st1 : PredictorState}
    {image_id : String} (h : load_model loadOk st = (st1, true))
    (h3 : ¬ st1.current_image_id = some image_id) (w hh : ℕ) (tempPath : String)
    (maxD : ℕ) :
    set_image_from_bytes loadOk (some (w, hh)) false tempPath image_id maxD st =
      ⟨st1, false, 1, true⟩ := by
  unfold set_image_from_bytes
  rw [h]
  simp [h3]

theorem set_image_from_bytes_slow {loadOk : Bool} {st st1 : PredictorState}
    {image_id : String} (h : load_model loadOk st = (st1, true))
    (h3 : ¬ st1.current_image_id = some image_id) (w hh : ℕ) (tempPath : String)
    (maxD : ℕ) :
    set_image_from_bytes loadOk (some (w, hh)) true tempPath image_id maxD st =
      ⟨{ st1 with current_image_id := some image_id,
                  current_image_path := some tempPath,
                  current_scale_factor :=
                    if maxD < max w hh then (maxD : ℚ) / ((max w hh : ℕ) : ℚ) else 1 },
       true, if maxD < max w hh then (maxD : ℚ) / ((max w hh : ℕ) : ℚ) else 1, true⟩ := by
  unfold set_image_from_bytes
  rw [h]
  simp [h3]

theorem set_image_from_bytes_success_state (loadOk : Bool) (decode : Option (ℕ × ℕ))
    (setOk : Bool) (tempPath image_id : String) (max_dimension : ℕ)
    (st : PredictorState)
    (hsucc : (set_image_from_bytes loadOk decode setOk tempPath image_id
      max_dimension st).success = true) :
    (set_image_from_bytes loadOk decode setOk tempPath image_id
        max_dimension st).state.model_loaded = true ∧
    (set_image_from_bytes loadOk decode setOk tempPath image_id
        max_dimension st).state.current_image_id = some image_id ∧
    (set_image_from_bytes loadOk decode setOk tempPath image_id
        max_dimension st).state.current_scale_factor =
      (set_image_from_bytes loadOk decode setOk tempPath image_id
        max_dimension st).scale_factor := by
  rcases hlm : load_model loadOk st with ⟨st1, b⟩
  cases b with
  | false =>
    rw [set_image_from_bytes_load_fail hlm decode setOk tempPath image_id
      max_dimension] at hsucc
    simp at hsucc
  | true =>
    have hm1 : st1.model_loaded = true := load_model_eq_true hlm
    by_cases h3 : st1.current_image_id = some image_id
    · rw [set_image_from_bytes_hit hlm h3 decode setOk tempPath max_dimension]
      exact ⟨hm1, h3, rfl⟩
    · cases decode with
      | none =>
        rw [set_image_from_bytes_decode_fail hlm h3 setOk tempPath
          max_dimension] at hsucc
        simp at hsucc
      | some wh =>
        rcases wh with ⟨w, hh⟩
        cases setOk with
        | false =>
          rw [set_image_from_bytes_set_fail hlm h3 w hh tempPath
            max_dimension] at hsucc
          simp at hsucc
        | true =>
          rw [set_image_from_bytes_slow hlm h3 w hh tempPath max_dimension]
          exact ⟨hm1, rfl, rfl⟩

/-- C6: ensure is idempotent.  After a successful `set_image_from_bytes`
for image id `i`, a second call with the same id — under any outcomes of
the external load/decode/set operations, i.e. performing no decode —
returns the identical scale factor and leaves the session unchanged, and
the predict route performs no fetch. -/
theorem c6_ensure_idempotent (loadOk : Bool) (decode : Option (ℕ × ℕ)) (setOk : Bool)
    (tempPath image_id : String) (max_dimension : ℕ) (st : PredictorState)
    (hsucc : (set_image_from_bytes loadOk decode setOk tempPath image_id
      max_dimension st).success = true) :
    ∀ loadOk2 decode2 setOk2 tempPath2 maxDim2,
      set_image_from_bytes loadOk2 decode2 setOk2 tempPath2 image_id maxDim2
          (set_image_from_bytes loadOk decode setOk tempPath image_id
            max_dimension st).state =
        ⟨(set_image_from_bytes loadOk decode setOk tempPath image_id
            max_dimension st).state,
         true,
         (set_image_from_bytes loadOk decode setOk tempPath image_id
            max_dimension st).scale_factor,
         false⟩ ∧
      needs_fetch (set_image_from_bytes loadOk decode setOk tempPath image_id
          max_dimension st).state image_id = false := by
  intro loadOk2 decode2 setOk2 tempPath2 maxDim2
  obtain ⟨hm, hid, hsf⟩ := set_image_from_bytes_success_state loadOk decode setOk
    tempPath image_id max_dimension st hsucc
  constructor
  · rw [set_image_from_bytes_fast loadOk2 decode2 setOk2 tempPath2 image_id maxDim2 _
      hm hid, hsf]
  · unfold needs_fetch
    rw [hid]
    simp

/-- C6 witness: a concrete successful first call (a 4096×2048 image
resized with scale 1/2), followed by the cache-hit second call. -/
theorem c6_ensure_idempotent_witness :
    set_image_from_bytes false (some (100, 100)) false "t2" "asset1" 2048
        (set_image_from_bytes true (some (4096, 2048)) true "t1" "asset1" 2048
          ⟨false, none, none, 1⟩).state =
      ⟨(set_image_from_bytes true (some (4096, 2048)) true "t1" "asset1" 2048
          ⟨false, none, none, 1⟩).state,
       true,
       (set_image_from_bytes true (some (4096, 2048)) true "t1" "asset1" 2048
          ⟨false, none, none, 1⟩).scale_factor,
       false⟩ ∧
    needs_fetch (set_image_from_bytes true (some (4096, 2048)) true "t1" "asset1" 2048
        ⟨false, none, none, 1⟩).state "asset1" = false :=
  c6_ensure_idempotent true (some (4096, 2048)) true "t1" "asset1" 2048
    ⟨false, none, none, 1⟩ (by decide) false (some (100, 100)) false "t2" 2048

/-- C10: the path-based `set_image` leaves a stale scale factor.  From a
loaded-model state whose session has scale factor s ≠ 1, a successful
`set_image` with a different image id installs the new id and path but
`get_scale_factor` still reports the previous image's s. -/
theorem c10_stale_scale_factor (loadOk : Bool) (image_path image_id : String)
    (st : PredictorState) (hm : st.model_loaded = true)
    (hid : st.current_image_id ≠ some image_id)
    (hs : st.current_scale_factor ≠ 1) :
    (set_image loadOk true image_path image_id st).2 = true ∧
    (set_image loadOk true image_path image_id st).1.current_image_id = some image_id ∧
    (set_image loadOk true image_path image_id st).1.current_image_path = some image_path ∧
    get_scale_factor (set_image loadOk true image_path image_id st).1 =
      st.current_scale_factor ∧
    get_scale_factor (set_image loadOk true image_path image_id st).1 ≠ 1 := by
  unfold set_image load_model get_scale_factor
  simp only [hm, if_true, ite_true, hid, if_false, ite_false]
  exact ⟨rfl, rfl, rfl, rfl, hs⟩

/-- C10 witness: a state holding image "a" at scale 1/2; switching to
image "b" keeps reporting scale 1/2. -/
theorem c10_stale_scale_factor_witness :
    (set_image true true "/tmp/b.png" "b" ⟨true, some "a", some "/tmp/a.png", 1/2⟩).2 = true ∧
    (set_image true true "/tmp/b.png" "b"
        ⟨true, some "a", some "/tmp/a.png", 1/2⟩).1.current_image_id = some "b" ∧
    (set_image true true "/tmp/b.png" "b"
        ⟨true, some "a", some "/tmp/a.png", 1/2⟩).1.current_image_path = some "/tmp/b.png" ∧
    get_scale_factor (set_image true true "/tmp/b.png" "b"
        ⟨true, some "a", some "/tmp/a.png", 1/2⟩).1 = 1/2 ∧
    get_scale_factor (set_image true true "/tmp/b.png" "b"
        ⟨true, some "a", some "/tmp/a.png", 1/2⟩).1 ≠ 1 :=
  c10_stale_scale_factor true "/tmp/b.png" "b" ⟨true, some "a", some "/tmp/a.png", 1/2⟩
    rfl (by decide) (by show (1/2 : ℚ) ≠ 1; norm_num)

/-! ## Model lifecycle (yolo.py, health.py, segment.py, sam3_predictor.py)

Three model handles share the GPU: the samgeo SAM3 predictor
(`SAM3Predictor.model_loaded`), the transformers segment model
(`segment._model`), and the YOLO detector (`yolo.current_model` /
`current_model_id`).  The first two form the segmentation family, the
third the detection family. -/

structure ServiceState where
  predictor : PredictorState
  seg_loaded : Bool
  yolo_model : Option String
deriving DecidableEq

/-- Modelled from the spec: `SAM3Predictor.unload_model` is called by the
health-router /unload handler (health.py line 132) and by the YOLO router
(yolo.py line 89) but its definition is not among the source files.  Per
the spec, release of a family "unloads if loaded, idempotent if already
unloaded" and reports per-family success; the handler reads a `success`
key from its returned dict. -/
def predictor_unload_model (st : PredictorState) : PredictorState × Bool :=
  ({ st with model_loaded := false }, true)

/-- Modelled from the spec: `segment.unload_model` (imported by health.py
line 8 and yolo.py line 20 as `unload_segment_model` but not among the
source files) releases the transformers segment model; idempotent,
reports success.  The Bool pair is (new loaded flag, success). -/
def segment_unload_model (seg_loaded : Bool) : Bool × Bool :=
  (false, true)

/-- Translation of `yolo.unload_current_model` (yolo.py lines 77-84):
clears `current_model` and `current_model_id`; returns immediately when
no model is resident (the cuda cache flush is external). -/
def unload_current_model (y : Option String) : Option String :=
  match y with
  | none => none
  | some _ => none

/-- Translation of `yolo.ensure_sam3_unloaded` (yolo.py lines 87-90):
unloads the samgeo predictor and the transformers segment model. -/
def ensure_sam3_unloaded (st : ServiceState) : ServiceState :=
  { st with predictor := (predictor_unload_model st.predictor).1,
            seg_loaded := (segment_unload_model st.seg_loaded).1 }

/-- Translation of the YOLO load route (yolo.py lines 106-124).  `loadOk`
is the outcome of the external weight download and YOLO construction.
The fast path returns when the same weights are already resident;
otherwise SAM3 is unloaded first, then the previous YOLO model, then the
new weights are loaded.  On failure the handler raises and no model is
resident. -/
def yolo_load_model (loadOk : Bool) (model_id : String) (st : ServiceState) :
    ServiceState × Bool :=
  if st.yolo_model = some model_id then (st, true)
  else
    let st1 := ensure_sam3_unloaded st
    let st2 := { st1 with yolo_model := unload_current_model st1.yolo_model }
    if loadOk then ({ st2 with yolo_model := some model_id }, true)
    else (st2, false)

/-- Translation of the YOLO unload route (yolo.py lines 127-131): always
answers status "unloaded". -/
def yolo_unload_route (st : ServiceState) : ServiceState × Bool :=
  ({ st with yolo_model := unload_current_model st.yolo_model }, true)

/-- Translation of `SAM3Predictor.load_model` lifted to the service
state: loading the segmentation predictor touches no YOLO state
(sam3_predictor.py lines 49-84 contain no unload of the detector). -/
def sam3_load_model (ok : Bool) (st : ServiceState) : ServiceState × Bool :=
  let r := load_model ok st.predictor
  ({ st with predictor := r.1 }, r.2)

/-- Translation of `segment.get_model` (segment.py lines 76-105) restricted
to its load effect: lazily loads the transformers segment model; `ok` is
the outcome of the external from_pretrained calls.  It touches no YOLO
state either. -/
def segment_get_model (ok : Bool) (st : ServiceState) : ServiceState × Bool :=
  if st.seg_loaded then (st, true)
  else if ok then ({ st with seg_loaded := true }, true)
  else (st, false)

/-- Translation of the health-router /unload handler (health.py lines
126-143): calls the predictor unload and the segment unload, conjoins
their per-family success flags.  Result: (state, overall success,
predictor success, segment success). -/
def health_unload_route (st : ServiceState) : ServiceState × Bool × Bool × Bool :=
  let p := predictor_unload_model st.predictor
  let s := segment_unload_model st.seg_loaded
  ({ st with predictor := p.1, seg_loaded := s.1 }, p.2 && s.2, p.2, s.2)

/-- Whether the segmentation family (either segmentation handle) is
loaded. -/
def seg_family_loaded (st : ServiceState) : Bool :=
  st.predictor.model_loaded || st.seg_loaded

/-- Whether the detection family is loaded. -/
def yolo_family_loaded (st : ServiceState) : Bool :=
  st.yolo_model.isSome

/-- C1 counterexample: mutual exclusion is one-directional only.  From a
state where the YOLO detector is resident, a successful segmentation
model load leaves both families loaded, and the detector is not
Unloaded as the claim requires. -/
theorem c1_exclusivity_counterexample :
    seg_family_loaded (sam3_load_model true
      ⟨⟨false, none, none, 1⟩, false, some "m"⟩).1 = true ∧
    yolo_family_loaded (sam3_load_model true
      ⟨⟨false, none, none, 1⟩, false, some "m"⟩).1 = true ∧
    (sam3_load_model true
      ⟨⟨false, none, none, 1⟩, false, some "m"⟩).1.yolo_model ≠ none := by
  refine ⟨rfl, rfl, ?_⟩
  decide

/-- C1 (amended): exclusivity is enforced in the detection-load direction
only.  Any YOLO load that takes the load path (requested weights not
already resident) leaves both segmentation handles Unloaded — in
particular acquire(detection) while segmentation is loaded evicts
segmentation, for either interleaving order in which the detection load
runs last.  The converse fails: loading the samgeo predictor or the
transformers segment model never changes the resident YOLO model. -/
theorem c1_one_directional_exclusion (st : ServiceState) (model_id : String)
    (loadOk : Bool) (hslow : st.yolo_model ≠ some model_id) :
    seg_family_loaded (yolo_load_model loadOk model_id st).1 = false ∧
    (∀ st2 ok, (sam3_load_model ok st2).1.yolo_model = st2.yolo_model) ∧
    (∀ st2 ok, (segment_get_model ok st2).1.yolo_model = st2.yolo_model) := by
  refine ⟨?_, ?_, ?_⟩
  · unfold yolo_load_model
    rw [if_neg hslow]
    cases loadOk <;> rfl
  · intro st2 ok
    rfl
  · intro st2 ok
    unfold segment_get_model
    split_ifs <;> rfl

/-- C1 witness: the amended exclusion applied to a concrete state with
the segmentation family loaded and a YOLO load of weights "m". -/
theorem c1_one_directional_exclusion_witness :
    seg_family_loaded (yolo_load_model true "m"
      ⟨⟨true, some "a", some "/tmp/a.png", 1⟩, true, none⟩).1 = false ∧
    (∀ st2 ok, (sam3_load_model ok st2).1.yolo_model = st2.yolo_model) ∧
    (∀ st2 ok, (segment_get_model ok st2).1.yolo_model = st2.yolo_model) :=
  c1_one_directional_exclusion ⟨⟨true, some "a", some "/tmp/a.png", 1⟩, true, none⟩
    "m" true (by decide)

/-- C2: per-family release is total and independent.  The YOLO unload
route always reports success, leaves both segmentation handles untouched
(so it cannot fail when segmentation is the resident family) and is
idempotent; the health /unload route always reports per-family success
for the predictor and the segment model, leaves the YOLO handle
untouched, and is idempotent. -/
theorem c2_unload_independent (st : ServiceState) :
    ((yolo_unload_route st).2 = true ∧
      (yolo_unload_route st).1.predictor = st.predictor ∧
      (yolo_unload_route st).1.seg_loaded = st.seg_loaded ∧
      (yolo_unload_route st).1.yolo_model = none ∧
      yolo_unload_route (yolo_unload_route st).1 =
        ((yolo_unload_route st).1, true)) ∧
    ((health_unload_route st).2.1 = true ∧
      (health_unload_route st).2.2.1 = true ∧
      (health_unload_route st).2.2.2 = true ∧
      (health_unload_route st).1.yolo_model = st.yolo_model ∧
      seg_family_loaded (health_unload_route st).1 = false ∧
      health_unload_route (health_unload_route st).1 =
        ((health_unload_route st).1, true, true, true)) := by
  refine ⟨⟨rfl, rfl, rfl, ?_, ?_⟩, rfl, rfl, rfl, rfl, rfl, rfl⟩
  · unfold yolo_unload_route unload_current_model
    cases st.yolo_model <;> rfl
  · unfold yolo_unload_route unload_current_model
    cases h : st.yolo_model <;> simp [h]

/-! ## Detection deduplication (segment.py lines 134-173) -/

structure Box where
  x1 : ℤ
  y1 : ℤ
  x2 : ℤ
  y2 : ℤ
deriving DecidableEq

structure Det where
  bbox : Box
  polygon : List (ℤ × ℤ)
  confidence : ℚ
  class_name : String
deriving DecidableEq

/-- Translation of `calculate_iou` (segment.py lines 158-173). -/
def calculate_iou (box1 box2 : Box) : ℚ :=
  let x1 := max box1.x1 box2.x1
  let y1 := max box1.y1 box2.y1
  let x2 := min box1.x2 box2.x2
  let y2 := min box1.y2 box2.y2
  if x2 ≤ x1 ∨ y2 ≤ y1 then 0
  else
    let intersection : ℚ := (((x2 - x1) * (y2 - y1) : ℤ) : ℚ)
    let area1 : ℚ := (((box1.x2 - box1.x1) * (box1.y2 - box1.y1) : ℤ) : ℚ)
    let area2 : ℚ := (((box2.x2 - box2.x1) * (box2.y2 - box2.y1) : ℤ) : ℚ)
    let union := area1 + area2 - intersection
    if 0 < union then intersection / union else 0

/-- The sort of `deduplicate_detections` (segment.py line 140):
`sorted(detections, key=confidence, reverse=True)`.  Python's sort is the
stable descending sort, i.e. insertion sort under the total relation
"has confidence at least as large"; sortedness, permutation and
stability are proved below. -/
def sort_by_confidence (dets : List Det) : List Det :=
  List.insertionSort (fun a b => b.confidence ≤ a.confidence) dets

/-- The greedy keep loop of `deduplicate_detections` (segment.py lines
142-153): a detection is dropped iff its IoU with some already-kept
detection strictly exceeds the threshold. -/
def nms_keep (t : ℚ) : List Det → List Det → List Det
  | kept, [] => kept
  | kept, d :: ds =>
    if kept.any (fun k => decide (t < calculate_iou d.bbox k.bbox)) then
      nms_keep t kept ds
    else
      nms_keep t (kept ++ [d]) ds

/-- Translation of `deduplicate_detections` (segment.py lines 134-155). -/
def deduplicate_detections (dets : List Det) (iou_threshold : ℚ) : List Det :=
  match dets with
  | [] => []
  | _ :: _ => nms_keep iou_threshold [] (sort_by_confidence dets)

theorem deduplicate_detections_eq (dets : List Det) (t : ℚ) :
    deduplicate_detections dets t = nms_keep t [] (sort_by_confidence dets) := by
  cases dets with
  | nil => rfl
  | cons d ds => rfl

theorem nms_keep_extend (t : ℚ) (l : List Det) :
    ∀ kept, ∃ sub, nms_keep t kept l = kept ++ sub ∧ sub.Sublist l := by
  induction l with
  | nil => exact fun kept => ⟨[], by simp [nms_keep]⟩
  | cons d ds ih =>
    intro kept
    by_cases h : kept.any (fun k => decide (t < calculate_iou d.bbox k.bbox)) = true
    · obtain ⟨sub, hs, hsub⟩ := ih kept
      refine ⟨sub, ?_, hsub.cons d⟩
      simp only [nms_keep, h, if_true]
      exact hs
    · obtain ⟨sub, hs, hsub⟩ := ih (kept ++ [d])
      refine ⟨d :: sub, ?_, hsub.cons₂ d⟩
      simp only [nms_keep, h, if_false, Bool.false_eq_true]
      rw [hs]
      simp

theorem nms_keep_pairwise (t : ℚ) (l : List Det) :
    ∀ kept, kept.Pairwise (fun a b => calculate_iou b.bbox a.bbox ≤ t) →
    (nms_keep t kept l).Pairwise (fun a b => calculate_iou b.bbox a.bbox ≤ t) := by
  induction l with
  | nil =>
    intro kept hk
    simpa [nms_keep] using hk
  | cons d ds ih =>
    intro kept hk
    by_cases h : kept.any (fun k => decide (t < calculate_iou d.bbox k.bbox)) = true
    · simp only [nms_keep, h, if_true]
      exact ih kept hk
    · simp only [nms_keep, h, if_false, Bool.false_eq_true]
      apply ih
      rw [List.pairwise_append]
      refine ⟨hk, List.pairwise_singleton _ _, ?_⟩
      intro a ha b hb
      rw [List.mem_singleton] at hb
      subst hb
      by_contra hlt
      exact h (List.any_eq_true.mpr ⟨a, ha, by simpa using not_le.mp hlt⟩)

theorem nms_keep_covers (t : ℚ) (l : List Det) :
    ∀ kept, ∀ d ∈ l, d ∈ nms_keep t kept l ∨
      ∃ k ∈ nms_keep t kept l, t < calculate_iou d.bbox k.bbox := by
  induction l with
  | nil =>
    intro kept d hd
    cases hd
  | cons e ds ih =>
    intro kept d hd
    by_cases h : kept.any (fun k => decide (t < calculate_iou e.bbox k.bbox)) = true
    · simp only [nms_keep, h, if_true]
      rcases List.mem_cons.mp hd with rfl | hd'
      · obtain ⟨k, hkmem, hik⟩ := List.any_eq_true.mp h
        obtain ⟨sub, hs, -⟩ := nms_keep_extend t ds kept
        refine Or.inr ⟨k, ?_, by simpa using hik⟩
        rw [hs]
        exact List.mem_append_left _ hkmem
      · exact ih kept d hd'
    · simp only [nms_keep, h, if_false, Bool.false_eq_true]
      rcases List.mem_cons.mp hd with rfl | hd'
      · obtain ⟨sub, hs, -⟩ := nms_keep_extend t ds (kept ++ [d])
        refine Or.inl ?_
        rw [hs]
        exact List.mem_append_left _ (List.mem_append_right _ (List.mem_singleton_self d))
      · exact ih (kept ++ [e]) d hd'

theorem sort_by_confidence_sorted (dets : List Det) :
    (sort_by_confidence dets).Sorted (fun a b => b.confidence ≤ a.confidence) := by
  haveI : IsTotal Det (fun a b => b.confidence ≤ a.confidence) :=
    ⟨fun a b => le_total b.confidence a.confidence⟩
  haveI : IsTrans Det (fun a b => b.confidence ≤ a.confidence) :=
    ⟨fun a b c h1 h2 => le_trans h2 h1⟩
  exact List.sorted_insertionSort _ dets

theorem orderedInsert_filter_of_neg {p : Det → Bool} {x : Det} (hx : p x = false)
    (l : List Det) :
    (List.orderedInsert (fun a b => b.confidence ≤ a.confidence) x l).filter p =
      l.filter p := by
  induction l with
  | nil => simp [List.orderedInsert, hx]
  | cons b bs ih =>
    by_cases h : b.confidence ≤ x.confidence
    · simp [List.orderedInsert, h, hx]
    · simp [List.orderedInsert, h, List.filter_cons, ih]

theorem orderedInsert_filter_of_eq (x : Det) (l : List Det) :
    (List.orderedInsert (fun a b => b.confidence ≤ a.confidence) x l).filter
        (fun d => decide (d.confidence = x.confidence)) =
      x :: l.filter (fun d => decide (d.confidence = x.confidence)) := by
  induction l with
  | nil => simp [List.orderedInsert]
  | cons b bs ih =>
    by_cases h : b.confidence ≤ x.confidence
    · simp [List.orderedInsert, h]
    · have hb : ¬ b.confidence = x.confidence := fun e => h (le_of_eq e)
      simp [List.orderedInsert, h, hb, List.filter_cons, ih]

theorem sort_by_confidence_stable (dets : List Det) (c : ℚ) :
    (sort_by_confidence dets).filter (fun d => decide (d.confidence = c)) =
      dets.filter (fun d => decide (d.confidence = c)) := by
  unfold sort_by_confidence
  induction dets with
  | nil => rfl
  | cons x xs ih =>
    show (List.orderedInsert _ x (List.insertionSort _ xs)).filter _ = _
    by_cases hx : x.confidence = c
    · subst hx
      rw [orderedInsert_filter_of_eq x (List.insertionSort _ xs), ih]
      simp [List.filter_cons]
    · have hpx : (fun d => decide (d.confidence = c)) x = false := by simp [hx]
      rw [orderedInsert_filter_of_neg hpx (List.insertionSort _ xs), ih]
      simp [List.filter_cons, hx]

/-- The two higher-confidence demo detections of the spec example with
IoU 3/5 (boxes [0,0,15,1] and [0,0,9,1]). -/
def demo_hi : Det := ⟨⟨0, 0, 15, 1⟩, [], 9/10, "weed"⟩

def demo_lo : Det := ⟨⟨0, 0, 9, 1⟩, [], 4/5, "weed"⟩

/-- The two demo detections with IoU 3/10 (boxes [0,0,6,1] and
[3,0,10,1]). -/
def demo_a : Det := ⟨⟨0, 0, 6, 1⟩, [], 9/10, "weed"⟩

def demo_b : Det := ⟨⟨3, 0, 10, 1⟩, [], 4/5, "weed"⟩

/-- C5: `deduplicate_detections` stably sorts by descending confidence
and greedily keeps a detection unless its IoU with an already-kept one
strictly exceeds the threshold.  The output is a subsequence of the
stable descending sort (hence itself sorted by descending confidence),
every pair of kept detections has IoU at most t, every dropped detection
is excluded by a kept one exceeding the threshold, the sort is a
permutation that preserves the relative order of equal confidences, and
the two concrete examples behave as specified: boxes with IoU 3/5 at
threshold 1/2 collapse to the higher-confidence one, boxes with IoU 3/10
are both kept. -/
theorem c5_deduplicate_spec (dets : List Det) (t : ℚ) :
    ((deduplicate_detections dets t).Sublist (sort_by_confidence dets) ∧
     (deduplicate_detections dets t).Pairwise (fun a b => b.confidence ≤ a.confidence) ∧
     (deduplicate_detections dets t).Pairwise
       (fun a b => calculate_iou b.bbox a.bbox ≤ t) ∧
     (∀ d ∈ sort_by_confidence dets, d ∈ deduplicate_detections dets t ∨
        ∃ k ∈ deduplicate_detections dets t, t < calculate_iou d.bbox k.bbox)) ∧
    ((sort_by_confidence dets).Perm dets ∧
     (sort_by_confidence dets).Sorted (fun a b => b.confidence ≤ a.confidence) ∧
     (∀ c, (sort_by_confidence dets).filter (fun d => decide (d.confidence = c)) =
        dets.filter (fun d => decide (d.confidence = c)))) ∧
    (calculate_iou demo_hi.bbox demo_lo.bbox = 3/5 ∧
     deduplicate_detections [demo_lo, demo_hi] (1/2) = [demo_hi]) ∧
    (calculate_iou demo_a.bbox demo_b.bbox = 3/10 ∧
     deduplicate_detections [demo_a, demo_b] (1/2) = [demo_a, demo_b]) := by
  obtain ⟨sub, hs, hsub⟩ := nms_keep_extend t (sort_by_confidence dets) []
  have hout : deduplicate_detections dets t = sub := by
    rw [deduplicate_detections_eq, hs]
    simp
  refine ⟨⟨?_, ?_, ?_, ?_⟩, ⟨List.perm_insertionSort _ dets,
    sort_by_confidence_sorted dets, fun c => sort_by_confidence_stable dets c⟩, ?_, ?_⟩
  · rw [hout]
    exact hsub
  · exact List.Pairwise.sublist (hout ▸ hsub) (sort_by_confidence_sorted dets)
  · rw [deduplicate_detections_eq]
    exact nms_keep_pairwise t (sort_by_confidence dets) [] (List.Pairwise.nil)
  · intro d hd
    rw [deduplicate_detections_eq]
    exact nms_keep_covers t (sort_by_confidence dets) [] d hd
  · constructor
    · show calculate_iou ⟨0, 0, 15, 1⟩ ⟨0, 0, 9, 1⟩ = 3/5
      norm_num [calculate_iou]
    · show deduplicate_detections [demo_lo, demo_hi] (1/2) = [demo_hi]
      rw [deduplicate_detections_eq]
      have hsort : sort_by_confidence [demo_lo, demo_hi] = [demo_hi, demo_lo] := by
        simp [sort_by_confidence, List.insertionSort, List.orderedInsert, demo_lo, demo_hi]
        norm_num
      rw [hsort]
      have h1 : calculate_iou demo_lo.bbox demo_hi.bbox = 3/5 := by
        norm_num [calculate_iou, demo_lo, demo_hi]
      simp only [nms_keep, List.any_nil, List.any_cons, Bool.or_false, h1]
      norm_num [h1]
  · constructor
    · show calculate_iou ⟨0, 0, 6, 1⟩ ⟨3, 0, 10, 1⟩ = 3/10
      norm_num [calculate_iou]
    · show deduplicate_detections [demo_a, demo_b] (1/2) = [demo_a, demo_b]
      rw [deduplicate_detections_eq]
      have hsort : sort_by_confidence [demo_a, demo_b] = [demo_a, demo_b] := by
        simp [sort_by_confidence, List.insertionSort, List.orderedInsert, demo_a, demo_b]
        norm_num
      rw [hsort]
      have h1 : calculate_iou demo_b.bbox demo_a.bbox = 3/10 := by
        norm_num [calculate_iou, demo_a, demo_b]
      simp only [nms_keep, List.any_nil, List.any_cons, Bool.or_false, h1]
      norm_num [h1]

/-- C5 witness: the coverage clause applied at the IoU-3/5 example — the
dropped lower-confidence detection is excluded by a kept detection whose
IoU with it exceeds the threshold. -/
theorem c5_deduplicate_spec_witness :
    demo_lo ∈ deduplicate_detections [demo_lo, demo_hi] (1/2) ∨
      ∃ k ∈ deduplicate_detections [demo_lo, demo_hi] (1/2),
        1/2 < calculate_iou demo_lo.bbox k.bbox :=
  (c5_deduplicate_spec [demo_lo, demo_hi] (1/2)).1.2.2.2 demo_lo
    (by
      have hsort : sort_by_confidence [demo_lo, demo_hi] = [demo_hi, demo_lo] := by
        simp [sort_by_confidence, List.insertionSort, List.orderedInsert, demo_lo, demo_hi]
        norm_num
      rw [hsort]
      simp)

/-! ## Mask to bounding box (utils/mask_utils.py lines 10-29)

A binary mask is a rectangular list of rows of Booleans.  `np.any(mask,
axis=1)` is the per-row disjunction, `np.any(mask, axis=0)` the
per-column disjunction, and `np.where(v)[0][[0, -1]]` the first and last
indices at which `v` is true. -/

/-- Index of the first true entry (`np.where(v)[0][0]`). -/
def firstTrue : List Bool → Option ℕ
  | [] => none
  | b :: bs => if b then some 0 else (firstTrue bs).map (· + 1)

/-- Index of the last true entry (`np.where(v)[0][-1]`). -/
def lastTrue : List Bool → Option ℕ
  | [] => none
  | b :: bs =>
    match lastTrue bs with
    | some i => some (i + 1)
    | none => if b then some 0 else none

/-- Per-row disjunction, `np.any(mask, axis=1)`. -/
def rowAny (mask : List (List Bool)) : List Bool :=
  mask.map (fun r => r.any id)

/-- Per-column disjunction, `np.any(mask, axis=0)`, for a rectangular
mask of width W. -/
def colAny (mask : List (List Bool)) (W : ℕ) : List Bool :=
  (List.range W).map (fun j => mask.any (fun r => r.getD j false))

/-- The width the code uses for `np.any(mask, axis=0)`: the row length
of the (rectangular) numpy array. -/
def maskWidth (mask : List (List Bool)) : ℕ :=
  (mask.headD []).length

/-- Translation of `mask_to_bbox` (mask_utils.py lines 10-29): None when
no pixel is set, else the inclusive index extremes [x1, y1, x2, y2] of
the set pixels. -/
def mask_to_bbox (mask : List (List Bool)) : Option (ℕ × ℕ × ℕ × ℕ) :=
  match firstTrue (colAny mask (maskWidth mask)), firstTrue (rowAny mask),
      lastTrue (colAny mask (maskWidth mask)), lastTrue (rowAny mask) with
  | some x1, some y1, some x2, some y2 => some (x1, y1, x2, y2)
  | _, _, _, _ => none

/-- Pixel lookup, false outside the mask extent. -/
def pixelAt (mask : List (List Bool)) (i j : ℕ) : Bool :=
  (mask.getD i []).getD j false

theorem firstTrue_none : ∀ (l : List Bool), firstTrue l = none →
    ∀ k, l.getD k false = false := by
  intro l
  induction l with
  | nil =>
    intro _ k
    simp
  | cons b bs ih =>
    intro h k
    unfold firstTrue at h
    cases hb : b with
    | true => simp [hb] at h
    | false =>
      simp only [hb, Bool.false_eq_true, if_false, Option.map_eq_none'] at h
      cases k with
      | zero => simpa using hb
      | succ k => exact ih h k

theorem firstTrue_some : ∀ (l : List Bool) (i : ℕ), firstTrue l = some i →
    l.getD i false = true ∧ ∀ k, k < i → l.getD k false = false := by
  intro l
  induction l with
  | nil =>
    intro i h
    simp [firstTrue] at h
  | cons b bs ih =>
    intro i h
    unfold firstTrue at h
    cases hb : b with
    | true =>
      rw [hb, if_pos rfl] at h
      obtain rfl : 0 = i := Option.some.inj h
      exact ⟨by simpa using hb, fun k hk => absurd hk (Nat.not_lt_zero k)⟩
    | false =>
      simp only [hb, Bool.false_eq_true, if_false, Option.map_eq_some'] at h
      obtain ⟨j, hj, rfl⟩ := h
      obtain ⟨h1, h2⟩ := ih j hj
      refine ⟨by simpa using h1, ?_⟩
      intro k hk
      cases k with
      | zero => simpa using hb
      | succ k => simpa using h2 k (Nat.lt_of_succ_lt_succ hk)

theorem lastTrue_none : ∀ (l : List Bool), lastTrue l = none →
    ∀ k, l.getD k false = false := by
  intro l
  induction l with
  | nil =>
    intro _ k
    simp
  | cons b bs ih =>
    intro h k
    unfold lastTrue at h
    cases hbs : lastTrue bs with
    | some j => rw [hbs] at h; simp at h
    | none =>
      rw [hbs] at h
      cases hb : b with
      | true => rw [hb, if_pos rfl] at h; simp at h
      | false =>
        cases k with
        | zero => simpa using hb
        | succ k => exact ih hbs k

theorem lastTrue_some : ∀ (l : List Bool) (i : ℕ), lastTrue l = some i →
    l.getD i false = true ∧ ∀ k, i < k → l.getD k false = false := by
  intro l
  induction l with
  | nil =>
    intro i h
    simp [lastTrue] at h
  | cons b bs ih =>
    intro i h
    unfold lastTrue at h
    cases hbs : lastTrue bs with
    | some j =>
      rw [hbs] at h
      obtain rfl : j + 1 = i := Option.some.inj h
      obtain ⟨h1, h2⟩ := ih j hbs
      refine ⟨by simpa using h1, ?_⟩
      intro k hk
      cases k with
      | zero => exact absurd hk (Nat.not_lt_zero _)
      | succ k => simpa using h2 k (Nat.lt_of_succ_lt_succ hk)
    | none =>
      rw [hbs] at h
      cases hb : b with
      | true =>
        rw [hb, if_pos rfl] at h
        obtain rfl : 0 = i := Option.some.inj h
        refine ⟨by simpa using hb, ?_⟩
        intro k hk
        cases k with
        | zero => exact absurd hk (Nat.not_lt_zero _)
        | succ k => exact lastTrue_none bs hbs k
      | false => rw [hb, if_neg (by simp)] at h; simp at h

theorem rowAny_getD (mask : List (List Bool)) (i : ℕ) :
    (rowAny mask).getD i false = (mask.getD i []).any id := by
  unfold rowAny
  induction mask generalizing i with
  | nil => simp
  | cons r rs ih =>
    cases i with
    | zero => simp
    | succ i => simpa using ih i

theorem colAny_getD (mask : List (List Bool)) (W j : ℕ) :
    (colAny mask W).getD j false =
      if j < W then mask.any (fun r => r.getD j false) else false := by
  unfold colAny
  by_cases hj : j < W
  · rw [if_pos hj, List.getD_eq_getElem]
    · simp [hj]
    · simpa using hj
  · rw [if_neg hj, List.getD_eq_default]
    simpa using le_of_not_lt hj

theorem pixelAt_extent {mask : List (List Bool)} {W : ℕ}
    (hrect : ∀ r ∈ mask, r.length = W) {i j : ℕ} (h : pixelAt mask i j = true) :
    j < W ∧ i < mask.length := by
  unfold pixelAt at h
  by_cases hi : i < mask.length
  · have hrow : mask.getD i [] ∈ mask := by
      rw [List.getD_eq_getElem mask [] hi]
      exact List.getElem_mem hi
    have hlen := hrect _ hrow
    by_cases hj : j < (mask.getD i []).length
    · exact ⟨hlen ▸ hj, hi⟩
    · rw [List.getD_eq_default _ _ (le_of_not_lt hj)] at h
      simp at h
  · rw [List.getD_eq_default _ _ (le_of_not_lt hi)] at h
    simp at h

theorem pixelAt_of_row {mask : List (List Bool)} {i j : ℕ}
    (h : (mask.getD i []).getD j false = true) : pixelAt mask i j = true := h

/-- A row's disjunction is true iff some pixel of the row is set. -/
theorem rowAny_iff (mask : List (List Bool)) (i : ℕ) :
    (rowAny mask).getD i false = true ↔ ∃ j, pixelAt mask i j = true := by
  rw [rowAny_getD]
  constructor
  · intro h
    obtain ⟨x, hx, hx'⟩ := List.any_eq_true.mp h
    obtain ⟨n, hn, he⟩ := List.getElem_of_mem hx
    refine ⟨n, ?_⟩
    unfold pixelAt
    rw [List.getD_eq_getElem _ _ hn, he]
    simpa using hx'
  · rintro ⟨j, hj⟩
    unfold pixelAt at hj
    have hjlen : j < (mask.getD i []).length := by
      by_contra hc
      rw [List.getD_eq_default _ _ (le_of_not_lt hc)] at hj
      simp at hj
    refine List.any_eq_true.mpr ⟨(mask.getD i []).getD j false, ?_, by simpa using hj⟩
    rw [List.getD_eq_getElem _ _ hjlen]
    exact List.getElem_mem hjlen

/-- A column's disjunction is true iff some pixel of the column is set
(for a rectangular mask and a column index inside the width). -/
theorem colAny_iff {mask : List (List Bool)} {W : ℕ}
    (hrect : ∀ r ∈ mask, r.length = W) (j : ℕ) :
    (colAny mask W).getD j false = true ↔ ∃ i, pixelAt mask i j = true := by
  rw [colAny_getD]
  by_cases hj : j < W
  · rw [if_pos hj]
    constructor
    · intro h
      obtain ⟨r, hr, hr'⟩ := List.any_eq_true.mp h
      obtain ⟨n, hn, he⟩ := List.getElem_of_mem hr
      refine ⟨n, ?_⟩
      unfold pixelAt
      rw [List.getD_eq_getElem _ _ hn, he]
      exact hr'
    · rintro ⟨i, hi⟩
      have hext := pixelAt_extent hrect hi
      unfold pixelAt at hi
      refine List.any_eq_true.mpr ⟨mask.getD i [], ?_, hi⟩
      rw [List.getD_eq_getElem _ _ hext.2]
      exact List.getElem_mem hext.2
  · rw [if_neg hj]
    constructor
    · intro h
      simp at h
    · rintro ⟨i, hi⟩
      exact absurd (pixelAt_extent hrect hi).1 hj

/-- The property the amended C7 claim asserts of `mask_to_bbox`: it
returns None exactly on the all-false mask, and otherwise the inclusive
extremes of the set pixels: every set pixel lies inside the box, every
box edge is attained by a set pixel, and x1 ≤ x2, y1 ≤ y2 (equality is
possible — the strict inequality of the original claim fails). -/
def BboxTight (mask : List (List Bool)) : Prop :=
  (mask_to_bbox mask = none ↔ ∀ i j, pixelAt mask i j = false) ∧
  (∀ x1 y1 x2 y2, mask_to_bbox mask = some (x1, y1, x2, y2) →
    x1 ≤ x2 ∧ y1 ≤ y2 ∧
    (∀ i j, pixelAt mask i j = true → x1 ≤ j ∧ j ≤ x2 ∧ y1 ≤ i ∧ i ≤ y2) ∧
    (∃ j, pixelAt mask y1 j = true) ∧ (∃ j, pixelAt mask y2 j = true) ∧
    (∃ i, pixelAt mask i x1 = true) ∧ (∃ i, pixelAt mask i x2 = true))

/-- C7 counterexample: the claim's strict Detection invariant x1 < x2,
y1 < y2 fails on the single-pixel mask, whose tight bbox is
[0, 0, 0, 0]. -/
theorem c7_strict_bbox_counterexample :
    mask_to_bbox [[true]] = some (0, 0, 0, 0) ∧
    ¬ ((0 : ℕ) < 0 ∧ (0 : ℕ) < 0) := by
  refine ⟨rfl, ?_⟩
  simp

/-- C7 (amended): for every rectangular mask, `mask_to_bbox` returns the
tight inclusive bounding box of the set pixels, or None when no pixel is
set; the bounds satisfy x1 ≤ x2 and y1 ≤ y2 (not the strict
inequalities of the original claim). -/
theorem c7_mask_to_bbox_tight (mask : List (List Bool))
    (hrect : ∀ r ∈ mask, r.length = maskWidth mask) :
    BboxTight mask := by
  constructor
  · constructor
    · intro hnone i j
      unfold mask_to_bbox at hnone
      rcases h1 : firstTrue (colAny mask (maskWidth mask)) with _ | x1
      · by_contra hpix
        have hcol := (colAny_iff hrect j).mpr ⟨i, by simpa using hpix⟩
        cases hx : (colAny mask (maskWidth mask)).getD j false
        · rw [hx] at hcol; exact absurd hcol (by simp)
        · exact absurd (firstTrue_none _ h1 j) (by rw [hx]; simp)
      · rcases h2 : firstTrue (rowAny mask) with _ | y1
        · by_contra hpix
          have hrow := (rowAny_iff mask i).mpr ⟨j, by simpa using hpix⟩
          exact absurd (firstTrue_none _ h2 i) (by rw [hrow]; simp)
        · rcases h3 : lastTrue (colAny mask (maskWidth mask)) with _ | x2
          · by_contra hpix
            have hcol := (colAny_iff hrect j).mpr ⟨i, by simpa using hpix⟩
            exact absurd (lastTrue_none _ h3 j) (by rw [hcol]; simp)
          · rcases h4 : lastTrue (rowAny mask) with _ | y2
            · by_contra hpix
              have hrow := (rowAny_iff mask i).mpr ⟨j, by simpa using hpix⟩
              exact absurd (lastTrue_none _ h4 i) (by rw [hrow]; simp)
            · rw [h1, h2, h3, h4] at hnone
              simp at hnone
    · intro hall
      unfold mask_to_bbox
      rcases h1 : firstTrue (colAny mask (maskWidth mask)) with _ | x1
      · rcases firstTrue (rowAny mask) <;> rcases lastTrue (colAny mask (maskWidth mask)) <;>
          rcases lastTrue (rowAny mask) <;> rfl
      · exfalso
        have := (firstTrue_some _ x1 h1).1
        obtain ⟨i, hi⟩ := (colAny_iff hrect x1).mp this
        exact absurd (hall i x1) (by rw [hi]; simp)
  · intro x1 y1 x2 y2 hsome
    unfold mask_to_bbox at hsome
    rcases h1 : firstTrue (colAny mask (maskWidth mask)) with _ | a1 <;> rw [h1] at hsome
    · simp at hsome
    rcases h2 : firstTrue (rowAny mask) with _ | b1 <;> rw [h2] at hsome
    · simp at hsome
    rcases h3 : lastTrue (colAny mask (maskWidth mask)) with _ | a2 <;> rw [h3] at hsome
    · simp at hsome
    rcases h4 : lastTrue (rowAny mask) with _ | b2 <;> rw [h4] at hsome
    · simp at hsome
    obtain ⟨he1, he2, he3, he4⟩ : a1 = x1 ∧ b1 = y1 ∧ a2 = x2 ∧ b2 = y2 := by
      have := Option.some.inj hsome
      simp only [Prod.mk.injEq] at this
      exact ⟨this.1, this.2.1, this.2.2.1, this.2.2.2⟩
    subst he1
    subst he2
    subst he3
    subst he4
    obtain ⟨hc1, hc1m⟩ := firstTrue_some _ _ h1
    obtain ⟨hr1, hr1m⟩ := firstTrue_some _ _ h2
    obtain ⟨hc2, hc2m⟩ := lastTrue_some _ _ h3
    obtain ⟨hr2, hr2m⟩ := lastTrue_some _ _ h4
    have hx12 : a1 ≤ a2 := by
      by_contra hlt
      exact absurd hc1 (by rw [hc2m a1 (lt_of_not_le hlt)]; simp)
    have hy12 : b1 ≤ b2 := by
      by_contra hlt
      exact absurd hr1 (by rw [hr2m b1 (lt_of_not_le hlt)]; simp)
    refine ⟨hx12, hy12, ?_, ?_, ?_, ?_, ?_⟩
    · intro i j hpix
      have hcol := (colAny_iff hrect j).mpr ⟨i, hpix⟩
      have hrow := (rowAny_iff mask i).mpr ⟨j, hpix⟩
      refine ⟨?_, ?_, ?_, ?_⟩
      · by_contra hlt
        exact absurd hcol (by rw [hc1m j (lt_of_not_le hlt)]; simp)
      · by_contra hlt
        exact absurd hcol (by rw [hc2m j (lt_of_not_le hlt)]; simp)
      · by_contra hlt
        exact absurd hrow (by rw [hr1m i (lt_of_not_le hlt)]; simp)
      · by_contra hlt
        exact absurd hrow (by rw [hr2m i (lt_of_not_le hlt)]; simp)
    · exact (rowAny_iff mask b1).mp hr1
    · exact (rowAny_iff mask b2).mp hr2
    · exact (colAny_iff hrect a1).mp hc1
    · exact (colAny_iff hrect a2).mp hc2

/-- C7 witness: the amended tightness property evaluated on the
rectangular 2×2 mask with an anti-diagonal of set pixels. -/
theorem c7_mask_to_bbox_tight_witness :
    BboxTight [[false, true], [true, false]] :=
  c7_mask_to_bbox_tight [[false, true], [true, false]] (by decide)

/-! ## Mask to polygon (utils/mask_utils.py lines 32-85)

`mask_to_polygon` drives four OpenCV primitives.  `cv2.contourArea` is
Green's-formula polygon area of the contour points (absolute value,
halved) and is modelled exactly; `cv2.arcLength` and `cv2.approxPolyDP`
involve square roots and are taken as oracle parameters; the
`cv2.findContours` output is modelled for the masks the claims use (its
documented behaviour: no contours on an all-zero mask, and the four
corner pixel coordinates, compressed by CHAIN_APPROX_SIMPLE, on a fully
set rectangle). -/

/-- Cyclic cross-product sum of a polygon, relative to a fixed first
point: the tail of the Green/shoelace formula. -/
def shoelaceAux (first : ℤ × ℤ) : List (ℤ × ℤ) → ℤ
  | [] => 0
  | [p] => p.1 * first.2 - first.1 * p.2
  | p :: q :: rest => (p.1 * q.2 - q.1 * p.2) + shoelaceAux first (q :: rest)

/-- Shoelace sum of a closed polygon. -/
def shoelace : List (ℤ × ℤ) → ℤ
  | [] => 0
  | p :: rest => shoelaceAux p (p :: rest)

/-- Model of `cv2.contourArea`: half the absolute shoelace sum of the
contour points. -/
def contourArea (pts : List (ℤ × ℤ)) : ℚ :=
  |((shoelace pts : ℤ) : ℚ)| / 2

/-- Python's `max(valid_contours, key=cv2.contourArea)`: fold keeping
the current element unless a strictly larger one appears (so the first
maximum wins). -/
def largest_contour (c0 : List (ℤ × ℤ)) (cs : List (List (ℤ × ℤ))) :
    List (ℤ × ℤ) :=
  cs.foldl (fun best c => if contourArea best < contourArea c then c else best) c0

/-- Translation of `mask_to_polygon` (mask_utils.py lines 32-85), with
the external `cv2.arcLength` (closed perimeter) and `cv2.approxPolyDP`
(Douglas-Peucker at the given epsilon) passed as `arc` and `approx` and
the `cv2.findContours` output passed as `contours`.  The source's local
variables perimeter/epsilon/points are inlined. -/
def mask_to_polygon (arc : List (ℤ × ℤ) → ℚ)
    (approx : List (ℤ × ℤ) → ℚ → List (ℤ × ℤ))
    (contours : List (List (ℤ × ℤ))) (simplify_tolerance min_area : ℚ) :
    Option (List (ℤ × ℤ)) :=
  if contours.isEmpty then none
  else
    match contours.filter (fun c => decide (min_area ≤ contourArea c)) with
    | [] => none
    | v0 :: vrest =>
      if (approx (largest_contour v0 vrest)
            (simplify_tolerance * arc (largest_contour v0 vrest))).length < 3 then
        none
      else
        some (approx (largest_contour v0 vrest)
          (simplify_tolerance * arc (largest_contour v0 vrest)))

/-- Model of the `cv2.findContours` output (RETR_EXTERNAL,
CHAIN_APPROX_SIMPLE) on an all-zero mask: no contours. -/
def contours_of_zero_mask : List (List (ℤ × ℤ)) := []

/-- Model of the `cv2.findContours` output (RETR_EXTERNAL,
CHAIN_APPROX_SIMPLE) on a fully set w×h rectangular mask (w, h ≥ 2): one
external contour through the four corner pixel coordinates. -/
def contours_of_filled_rect (w h : ℕ) : List (List (ℤ × ℤ)) :=
  [[(0, 0), (0, (h : ℤ) - 1), ((w : ℤ) - 1, (h : ℤ) - 1), ((w : ℤ) - 1, 0)]]

theorem largest_contour_spec (cs : List (List (ℤ × ℤ))) :
    ∀ c0, (largest_contour c0 cs = c0 ∨ largest_contour c0 cs ∈ cs) ∧
      contourArea c0 ≤ contourArea (largest_contour c0 cs) ∧
      ∀ c ∈ cs, contourArea c ≤ contourArea (largest_contour c0 cs) := by
  induction cs with
  | nil =>
    intro c0
    refine ⟨Or.inl rfl, le_refl _, ?_⟩
    intro c hc
    cases hc
  | cons c cs ih =>
    intro c0
    have hfold : largest_contour c0 (c :: cs) =
        largest_contour (if contourArea c0 < contourArea c then c else c0) cs := rfl
    obtain ⟨hmem, hle, hall⟩ :=
      ih (if contourArea c0 < contourArea c then c else c0)
    constructor
    · rw [hfold]
      rcases hmem with he | hm
      · rw [he]
        by_cases hc : contourArea c0 < contourArea c
        · rw [if_pos hc]
          exact Or.inr (List.mem_cons_self c cs)
        · rw [if_neg hc]
          exact Or.inl rfl
      · exact Or.inr (List.mem_cons_of_mem c hm)
    · have hstep : contourArea c0 ≤
          contourArea (if contourArea c0 < contourArea c then c else c0) := by
        by_cases hc : contourArea c0 < contourArea c
        · rw [if_pos hc]
          exact hc.le
        · rw [if_neg hc]
      have hstepc : contourArea c ≤
          contourArea (if contourArea c0 < contourArea c then c else c0) := by
        by_cases hc : contourArea c0 < contourArea c
        · rw [if_pos hc]
        · rw [if_neg hc]
          exact le_of_not_lt hc
      refine ⟨le_trans hstep (hfold ▸ hle), ?_⟩
      intro d hd
      rcases List.mem_cons.mp hd with rfl | hd'
      · exact le_trans hstepc (hfold ▸ hle)
      · exact hfold ▸ hall d hd'

theorem mask_to_polygon_all_below (arc : List (ℤ × ℤ) → ℚ)
    (approx : List (ℤ × ℤ) → ℚ → List (ℤ × ℤ)) (tol minA : ℚ)
    (contours : List (List (ℤ × ℤ)))
    (hall : ∀ c ∈ contours, contourArea c < minA) :
    mask_to_polygon arc approx contours tol minA = none := by
  unfold mask_to_polygon
  split_ifs with he
  · rfl
  · have hf : contours.filter (fun c => decide (minA ≤ contourArea c)) = [] := by
      rw [List.filter_eq_nil_iff]
      intro c hc
      simpa using not_le.mpr (hall c hc)
    rw [hf]

theorem filled_rect_10_below : ∀ c ∈ contours_of_filled_rect 10 10,
    contourArea c < 100 := by
  intro c hc
  simp only [contours_of_filled_rect, List.mem_singleton] at hc
  subst hc
  norm_num [contourArea, shoelace, shoelaceAux]

/-- C8 counterexample: on the filled 10×10 square mask with the default
parameters (simplify_tolerance = 1/50, min_area = 100) the code returns
"no polygon", not a 4-point polygon: the traced boundary contour encloses
area 81 < 100 and is filtered out (the arc/approx oracles shown are the
true perimeter 36 and the identity, but any values give the same
result). -/
theorem c8_square10_counterexample :
    mask_to_polygon (fun _ => 36) (fun cpts _ => cpts)
      (contours_of_filled_rect 10 10) (1/50) 100 = none ∧
    contourArea [(0, 0), (0, 9), (9, 9), (9, 0)] = 81 := by
  constructor
  · exact mask_to_polygon_all_below _ _ _ _ _ filled_rect_10_below
  · norm_num [contourArea, shoelace, shoelaceAux]

/-- C8 (amended): the contour pipeline of `mask_to_polygon` behaves as
described — no contours (the all-zero mask) gives no polygon, contours
all below min_area give no polygon, a returned polygon has at least 3
points and is the Douglas-Peucker simplification (epsilon =
simplify_tolerance × perimeter) of a largest contour meeting min_area —
but the filled 10×10 square mask with default min_area 100 yields no
polygon (its contour area is 81), not the 4-point polygon the original
claim states. -/
theorem c8_mask_to_polygon_spec (arc : List (ℤ × ℤ) → ℚ)
    (approx : List (ℤ × ℤ) → ℚ → List (ℤ × ℤ)) (tol minA : ℚ)
    (contours : List (List (ℤ × ℤ))) :
    mask_to_polygon arc approx contours_of_zero_mask tol minA = none ∧
    ((∀ c ∈ contours, contourArea c < minA) →
      mask_to_polygon arc approx contours tol minA = none) ∧
    mask_to_polygon arc approx (contours_of_filled_rect 10 10) tol 100 = none ∧
    (∀ pts, mask_to_polygon arc approx contours tol minA = some pts →
      3 ≤ pts.length ∧
      ∃ lc, lc ∈ contours ∧ minA ≤ contourArea lc ∧
        (∀ c ∈ contours, minA ≤ contourArea c → contourArea c ≤ contourArea lc) ∧
        pts = approx lc (tol * arc lc)) := by
  refine ⟨rfl, mask_to_polygon_all_below arc approx tol minA contours,
    mask_to_polygon_all_below arc approx tol 100 _ filled_rect_10_below, ?_⟩
  · intro pts hsome
    unfold mask_to_polygon at hsome
    by_cases he : contours.isEmpty
    · rw [if_pos he] at hsome
      cases hsome
    · rw [if_neg he] at hsome
      rcases hf : contours.filter (fun c => decide (minA ≤ contourArea c)) with
        _ | ⟨v0, vrest⟩
      · rw [hf] at hsome
        cases hsome
      · rw [hf] at hsome
        dsimp only at hsome
        by_cases hlen : (approx (largest_contour v0 vrest)
            (tol * arc (largest_contour v0 vrest))).length < 3
        · rw [if_pos hlen] at hsome
          cases hsome
        · rw [if_neg hlen] at hsome
          obtain rfl : approx (largest_contour v0 vrest)
              (tol * arc (largest_contour v0 vrest)) = pts := Option.some.inj hsome
          refine ⟨le_of_not_lt hlen, largest_contour v0 vrest, ?_, ?_, ?_, rfl⟩
          · have hmem : largest_contour v0 vrest ∈ v0 :: vrest := by
              rcases (largest_contour_spec vrest v0).1 with he' | hm
              · rw [he']
                exact List.mem_cons_self v0 vrest
              · exact List.mem_cons_of_mem v0 hm
            have := hf ▸ hmem
            exact (List.mem_filter.mp this).1
          · have hmem : largest_contour v0 vrest ∈ v0 :: vrest := by
              rcases (largest_contour_spec vrest v0).1 with he' | hm
              · rw [he']
                exact List.mem_cons_self v0 vrest
              · exact List.mem_cons_of_mem v0 hm
            have := hf ▸ hmem
            simpa using (List.mem_filter.mp this).2
          · intro c hc hcge
            have hcf : c ∈ v0 :: vrest := by
              rw [← hf]
              exact List.mem_filter.mpr ⟨hc, by simpa using hcge⟩
            rcases List.mem_cons.mp hcf with rfl | hcv
            · exact (largest_contour_spec vrest c).2.1
            · exact (largest_contour_spec vrest v0).2.2 c hcv

/-- C8 witness: the spec applied with the true perimeter and the
identity simplifier to the one-contour list of a filled 12×12 mask,
whose contour area 121 passes the default min_area. -/
theorem c8_mask_to_polygon_spec_witness :
    mask_to_polygon (fun _ => 44) (fun cpts _ => cpts) contours_of_zero_mask
        (1/50) 100 = none ∧
    ((∀ c ∈ contours_of_filled_rect 12 12, contourArea c < 200) →
      mask_to_polygon (fun _ => 44) (fun cpts _ => cpts)
        (contours_of_filled_rect 12 12) (1/50) 200 = none) ∧
    mask_to_polygon (fun _ => 44) (fun cpts _ => cpts)
      (contours_of_filled_rect 10 10) (1/50) 100 = none ∧
    (∀ pts, mask_to_polygon (fun _ => 44) (fun cpts _ => cpts)
        (contours_of_filled_rect 12 12) (1/50) 200 = some pts →
      3 ≤ pts.length ∧
      ∃ lc, lc ∈ contours_of_filled_rect 12 12 ∧ (200 : ℚ) ≤ contourArea lc ∧
        (∀ c ∈ contours_of_filled_rect 12 12,
          (200 : ℚ) ≤ contourArea c → contourArea c ≤ contourArea lc) ∧
        pts = (fun cpts (_ : ℚ) => cpts) lc ((1/50) * (fun _ => (44 : ℚ)) lc)) :=
  c8_mask_to_polygon_spec (fun _ => 44) (fun cpts _ => cpts) (1/50) 200
    (contours_of_filled_rect 12 12)

/-! ## Concept segmentation endpoint (segment.py lines 183-417)

The handler's mode dispatch and response assembly.  The external pieces
— `get_model` (raises 503 when the transformers load fails), the target
image decode/resize (raises 400 on bad input), and the
processor/model/post-processing block of each branch — are oracle
arguments: `crop_dets i` is the detection-dict list produced for crop i
(None models the per-crop exception that is logged and skipped),
`boxes_dets` and `text_dets` the detections of the single box-mode and
text-mode inference passes. -/

structure SegmentRequest where
  image : String
  exemplar_crops : Option (List String)
  boxes : Option (List Box)
  class_name : Option String

structure SegmentResponse where
  success : Bool
  detections : List Det
  count : ℕ
  mode : String
deriving DecidableEq

inductive SegmentResult where
  | ok (resp : SegmentResponse)
  | error (status : ℕ) (detail : String)
deriving DecidableEq

/-- Python truthiness of `xs and len(xs) > 0` for an optional list. -/
def truthy_list {α : Type} (l : Option (List α)) : Bool :=
  match l with
  | some (_ :: _) => true
  | _ => false

/-- Python truthiness of an optional string (None and "" are falsy). -/
def truthy_str (s : Option String) : Bool :=
  match s with
  | some s => if s = "" then false else true
  | none => false

/-- Translation of the `segment` handler (segment.py lines 183-417):
503 when the model cannot load, 400 when the target image does not
decode, then the three prompt branches in precedence order — exemplar
crops (per-crop accumulation, failures skipped, pooled result
deduplicated at IoU threshold 1/2), same-image boxes, text — and 400
when no prompt input is given. -/
def segment (get_model_ok decode_ok : Bool) (crop_dets : ℕ → Option (List Det))
    (boxes_dets text_dets : List Det) (r : SegmentRequest) : SegmentResult :=
  if get_model_ok = false then .error 503 "SAM3 model not available"
  else if decode_ok = false then .error 400 "Invalid image"
  else if truthy_list r.exemplar_crops then
    .ok ⟨true,
      deduplicate_detections
        (((List.range (r.exemplar_crops.getD []).length).filterMap crop_dets).flatten)
        (1/2),
      (deduplicate_detections
        (((List.range (r.exemplar_crops.getD []).length).filterMap crop_dets).flatten)
        (1/2)).length,
      "exemplar_crops"⟩
  else if truthy_list r.boxes then
    .ok ⟨true, boxes_dets, boxes_dets.length, "boxes"⟩
  else if truthy_str r.class_name then
    .ok ⟨true, text_dets, text_dets.length, "text"⟩
  else
    .error 400 "Must provide exemplar_crops, boxes, or class_name"

/-- C9: exactly one prompt mode is selected, by the precedence exemplar
crops > boxes > text; with no prompt input the handler answers HTTP 400
for every possible inference outcome (so no inference result is
consulted); an ok response always has success = true with count matching
the detections, and a selected mode with zero detections is such a
success. -/
theorem c9_segment_modes (crop_dets : ℕ → Option (List Det))
    (boxes_dets text_dets : List Det) (r : SegmentRequest) :
    (∀ c cs, r.exemplar_crops = some (c :: cs) →
      ∃ resp, segment true true crop_dets boxes_dets text_dets r = .ok resp ∧
        resp.mode = "exemplar_crops" ∧ resp.success = true) ∧
    (truthy_list r.exemplar_crops = false → ∀ b bs, r.boxes = some (b :: bs) →
      segment true true crop_dets boxes_dets text_dets r =
        .ok ⟨true, boxes_dets, boxes_dets.length, "boxes"⟩) ∧
    (truthy_list r.exemplar_crops = false → truthy_list r.boxes = false →
      ∀ s, r.class_name = some s → s ≠ "" →
      segment true true crop_dets boxes_dets text_dets r =
        .ok ⟨true, text_dets, text_dets.length, "text"⟩) ∧
    (truthy_list r.exemplar_crops = false → truthy_list r.boxes = false →
      truthy_str r.class_name = false →
      ∀ cd bd td, segment true true cd bd td r =
        .error 400 "Must provide exemplar_crops, boxes, or class_name") ∧
    (∀ g d cd bd td resp, segment g d cd bd td r = .ok resp →
      resp.success = true ∧ resp.count = resp.detections.length) ∧
    (truthy_list r.exemplar_crops = false → truthy_list r.boxes = false →
      truthy_str r.class_name = true →
      segment true true crop_dets boxes_dets [] r = .ok ⟨true, [], 0, "text"⟩) := by
  refine ⟨?_, ?_, ?_, ?_, ?_, ?_⟩
  · intro c cs hc
    have ht : truthy_list r.exemplar_crops = true := by
      rw [hc]
      rfl
    have hseg : segment true true crop_dets boxes_dets text_dets r =
        .ok ⟨true,
          deduplicate_detections
            (((List.range (r.exemplar_crops.getD []).length).filterMap
              crop_dets).flatten) (1/2),
          (deduplicate_detections
            (((List.range (r.exemplar_crops.getD []).length).filterMap
              crop_dets).flatten) (1/2)).length,
          "exemplar_crops"⟩ := by
      unfold segment
      rw [ht]
      simp
    exact ⟨_, hseg, rfl, rfl⟩
  · intro he b bs hb
    have ht : truthy_list r.boxes = true := by
      rw [hb]
      rfl
    unfold segment
    rw [he, ht]
    simp
  · intro he hbx s hs hne
    have ht : truthy_str r.class_name = true := by
      rw [hs]
      dsimp only [truthy_str]
      rw [if_neg hne]
    unfold segment
    rw [he, hbx, ht]
    simp
  · intro he hbx hcn cd bd td
    unfold segment
    rw [he, hbx, hcn]
    simp
  · intro g d cd bd td resp h
    unfold segment at h
    split_ifs at h <;>
      (obtain rfl := SegmentResult.ok.inj h
       exact ⟨rfl, rfl⟩)
  · intro he hbx ht
    unfold segment
    rw [he, hbx, ht]
    simp

/-- C9 witness: a request carrying none of the three prompt inputs is
answered with the 400 prompt error, independent of the inference
oracles. -/
theorem c9_segment_modes_witness :
    segment true true (fun _ => none) [] [] ⟨"img", none, none, none⟩ =
      .error 400 "Must provide exemplar_crops, boxes, or class_name" :=
  (c9_segment_modes (fun _ => none) [] [] ⟨"img", none, none, none⟩).2.2.2.1
    rfl rfl rfl (fun _ => none) [] []

end AgriDrone
